import Mathlib

/-!
Verification development for the jiddra block file decoder.

The decoder reads a fixed 32 byte header, a variable length user parameter
table, and fixed size data blocks located by offset arithmetic.  A file is
modelled as a list of bytes (natural numbers below 256).  Python file reads
are modelled by `readAt` and `readRaw`; the raised Python exceptions are
modelled by the `JErr` type, which distinguishes the exception classes that
the source can raise, because the enumeration loop in `info` catches only
`ValueError`.
-/

/-- Little endian value of a byte list. -/
def leNat : List Nat → Nat
  | [] => 0
  | b :: bs => b + 256 * leNat bs

/-- Little endian bytes of a natural number, at width `w`. -/
def natToLE : Nat → Nat → List Nat
  | 0, _ => []
  | w + 1, n => n % 256 :: natToLE w (n / 256)

/-- Big endian value of a byte list, as computed by `struct.unpack` with a
big endian format. -/
def beNat (bs : List Nat) : Nat := leNat bs.reverse

/-- Big endian bytes of a natural number, at width `w`. -/
def natToBE (w n : Nat) : List Nat := (natToLE w n).reverse

/-- Reading of an unsigned `w` byte value in two's complement. -/
def toSigned (w n : Nat) : Int :=
  if n < 2 ^ (8 * w - 1) then (n : Int) else (n : Int) - 2 ^ (8 * w)

/-- Signed big endian decoding of a `w` byte field, the meaning of the
`struct` formats `>q` (w = 8) and `>i` (w = 4). -/
def sint (w : Nat) (bs : List Nat) : Int := toSigned w (beNat bs)

/-- Signed big endian encoding at width `w`, the inverse direction of
`sint` used to state round trip properties. -/
def packBE (w : Nat) (v : Int) : List Nat :=
  natToBE w (v % (2 : Int) ^ (8 * w)).toNat

/-- Python `f.seek(pos); f.read(n)` on a file opened for binary reading:
returns the available bytes, possibly fewer than `n`. -/
def readAt (file : List Nat) (pos n : Nat) : List Nat := (file.drop pos).take n

/-- Python `f.read(n)` where `n` may be negative: a negative count reads
everything up to end of file. -/
def readRaw (file : List Nat) (pos : Nat) (n : Int) : List Nat :=
  if n < 0 then file.drop pos else readAt file pos n.toNat

/-- The exception outcomes of the decoder, separated by exception class and
raise site.  The four `truncated` constructors and `blockOutOfRange` are the
`ValueError` raises of the source; `unicodeDecode` is the
`UnicodeDecodeError` that `bytes.decode` raises (a `ValueError` subclass);
`structShort` is the `struct.error` that `struct.unpack` raises on a short
buffer (not a `ValueError`); `negativeSeek` is the `OSError` that `f.seek`
raises on a negative offset (not a `ValueError`). -/
inductive JErr where
  | truncatedHeader
  | truncatedParamNameLength
  | truncatedParamName
  | truncatedParamValue
  | unicodeDecode
  | blockOutOfRange
  | structShort
  | negativeSeek
  deriving DecidableEq

/-- Whether an exception is caught by `except ValueError`. -/
def isValueError : JErr → Bool
  | .structShort => false
  | .negativeSeek => false
  | _ => true

/-- Strict UTF-8 decoding of a byte list into code points, the model of
Python `bytes.decode` with the utf-8 codec: rejects stray continuation
bytes, overlong forms, surrogates and code points above 0x10FFFF. -/
def utf8Decode : List Nat → Option (List Nat)
  | [] => some []
  | b :: rest =>
    if b < 0x80 then
      match utf8Decode rest with
      | some cs => some (b :: cs)
      | none => none
    else if b < 0xC2 then none
    else if b < 0xE0 then
      match rest with
      | b1 :: r =>
        if 0x80 ≤ b1 ∧ b1 < 0xC0 then
          match utf8Decode r with
          | some cs => some (((b - 0xC0) * 0x40 + (b1 - 0x80)) :: cs)
          | none => none
        else none
      | [] => none
    else if b < 0xF0 then
      match rest with
      | b1 :: b2 :: r =>
        if ((if b = 0xE0 then 0xA0 else 0x80) ≤ b1 ∧
              b1 < (if b = 0xED then 0xA0 else 0xC0)) ∧
            (0x80 ≤ b2 ∧ b2 < 0xC0) then
          match utf8Decode r with
          | some cs =>
              some (((b - 0xE0) * 0x1000 + (b1 - 0x80) * 0x40 + (b2 - 0x80)) :: cs)
          | none => none
        else none
      | [_] => none
      | [] => none
    else if b < 0xF5 then
      match rest with
      | b1 :: b2 :: b3 :: r =>
        if ((if b = 0xF0 then 0x90 else 0x80) ≤ b1 ∧
              b1 < (if b = 0xF4 then 0x90 else 0xC0)) ∧
            (0x80 ≤ b2 ∧ b2 < 0xC0) ∧ (0x80 ≤ b3 ∧ b3 < 0xC0) then
          match utf8Decode r with
          | some cs =>
              some (((b - 0xF0) * 0x40000 + (b1 - 0x80) * 0x1000 +
                (b2 - 0x80) * 0x40 + (b3 - 0x80)) :: cs)
          | none => none
        else none
      | [_, _] => none
      | [_] => none
      | [] => none
    else none

/-- Python dict assignment `d[k] = v`: an existing key keeps its position
and gets the new value, a new key is appended, preserving insertion order. -/
def dictInsert (d : List (List Nat × Int)) (k : List Nat) (v : Int) :
    List (List Nat × Int) :=
  if d.any (fun p => p.1 == k) then
    d.map (fun p => if p.1 = k then (k, v) else p)
  else d ++ [(k, v)]

/-- The six fields of the 32 byte file header, in file order. -/
structure FileHeader where
  magic_number : Int
  file_id : Int
  version : Int
  block_size : Int
  first_free_block : Int
  user_param_count : Int
  deriving DecidableEq

/-- The `_read_header` method: read the first 32 bytes, fail when fewer are
available, otherwise unpack them with the big endian format `>qqiiii`. -/
def read_header (file : List Nat) : Except JErr FileHeader :=
  let header := file.take 32
  if header.length < 32 then .error .truncatedHeader
  else
    .ok { magic_number := sint 8 (header.take 8)
          file_id := sint 8 ((header.drop 8).take 8)
          version := sint 4 ((header.drop 16).take 4)
          block_size := sint 4 ((header.drop 20).take 4)
          first_free_block := sint 4 ((header.drop 24).take 4)
          user_param_count := sint 4 ((header.drop 28).take 4) }

/-- The loop body of `_read_user_params`: `k` remaining iterations, current
file position `pos`, accumulated dict `acc`.  On success it returns the
dict together with the final file position, which records how many bytes
the table read consumed. -/
def read_user_params_loop (file : List Nat) :
    Nat → Nat → List (List Nat × Int) →
      Except JErr (List (List Nat × Int) × Nat)
  | 0, pos, acc => .ok (acc, pos)
  | k + 1, pos, acc =>
    let name_length_data := readAt file pos 4
    if name_length_data.length < 4 then .error .truncatedParamNameLength
    else
      let name_length := sint 4 name_length_data
      let name_data := readRaw file (pos + 4) name_length
      if (name_data.length : Int) < name_length then .error .truncatedParamName
      else
        match utf8Decode name_data with
        | none => .error .unicodeDecode
        | some name =>
          let pos2 := pos + 4 + name_data.length
          let value_data := readAt file pos2 4
          if value_data.length < 4 then .error .truncatedParamValue
          else
            read_user_params_loop file k (pos2 + 4)
              (dictInsert acc name (sint 4 value_data))

/-- The `_read_user_params` method: seek to offset 32 and decode
`user_param_count` entries; Python `range` of a negative count is empty. -/
def read_user_params (file : List Nat) (count : Int) :
    Except JErr (List (List Nat × Int) × Nat) :=
  read_user_params_loop file count.toNat 32 []

/-- The `get_buffer_block` method: seek to `(block_index + 1) * block_size`
and read the one byte flags, the four byte block id and the
`block_size - 5` byte payload. -/
def get_buffer_block (file : List Nat) (blockSize blockIndex : Int) :
    Except JErr (List Nat × List Nat × Int) :=
  let offset : Int := (blockIndex + 1) * blockSize
  if offset < 0 then .error .negativeSeek
  else
    let pos := offset.toNat
    let flags := readAt file pos 1
    if flags = [] then .error .blockOutOfRange
    else
      let id_data := readAt file (pos + 1) 4
      if id_data.length < 4 then .error .structShort
      else
        let block_id := sint 4 id_data
        let block_data := readRaw file (pos + 5) (blockSize - 5)
        if (block_data.length : Int) < blockSize - 5 then
          .error .blockOutOfRange
        else .ok (flags, block_data, block_id)

/-- The decoded state of a `LocalBufferFile` after `__init__` ran both
`_read_header` and `_read_user_params`. -/
structure LocalBufferFile where
  magic_number : Int
  file_id : Int
  version : Int
  block_size : Int
  first_free_block : Int
  user_param_count : Int
  user_params : List (List Nat × Int)
  deriving DecidableEq

/-- `LocalBufferFile.__init__`: read the header, then the user parameters;
either failure aborts construction and no decoded view is produced. -/
def LocalBufferFile.load (db_file : List Nat) : Except JErr LocalBufferFile :=
  match read_header db_file with
  | .error e => .error e
  | .ok h =>
    match read_user_params db_file h.user_param_count with
    | .error e => .error e
    | .ok (ps, _) =>
      .ok { magic_number := h.magic_number, file_id := h.file_id
            version := h.version, block_size := h.block_size
            first_free_block := h.first_free_block
            user_param_count := h.user_param_count, user_params := ps }

/-- The block counting loop of `info`, with explicit fuel.  The loop state
is the variable `block_id`, which the source overwrites with the block id
unpacked from the block just read.  The result pairs the list of block
indices passed to `get_buffer_block`, in order, with the outcome: `some n`
when the loop ended by a caught `ValueError` and printed `n`, `none` when
the fuel ran out before the loop ended, and an error when an uncaught
exception escaped the loop. -/
def info_loop (file : List Nat) (blockSize : Int) :
    Nat → Int → List Int × Except JErr (Option Int)
  | 0, _ => ([], .ok none)
  | fuel + 1, block_id =>
    let bid := block_id + 1
    match get_buffer_block file blockSize bid with
    | .ok res =>
      let p := info_loop file blockSize fuel res.2.2
      (bid :: p.1, p.2)
    | .error e =>
      ([bid], if isValueError e then .ok (some bid) else .error e)

/-- The block counting part of `info`: one read at index 0 outside any
try block, then the loop; the first component lists the indices passed to
`get_buffer_block` in order. -/
def info_report (file : List Nat) (blockSize : Int) (fuel : Nat) :
    List Int × Except JErr (Option Int) :=
  match get_buffer_block file blockSize 0 with
  | .error e => ([0], .error e)
  | .ok res =>
    let p := info_loop file blockSize fuel res.2.2
    (0 :: p.1, p.2)

/-! ## Spec side encoders, used to state round trip properties -/

/-- The byte encoding of one parameter entry: 4 byte big endian signed name
length, the name bytes, 4 byte big endian signed value. -/
def encodeEntry (e : List Nat × Int) : List Nat :=
  packBE 4 (e.1.length : Int) ++ e.1 ++ packBE 4 e.2

/-- The byte encoding of a whole parameter table. -/
def encodeParams (entries : List (List Nat × Int)) : List Nat :=
  (entries.map encodeEntry).flatten

/-- The decoded code points of a name given by its UTF-8 bytes. -/
def decodeName (bs : List Nat) : List Nat := (utf8Decode bs).getD []

/-- The byte re-encoding of a decoded header, with the same field widths
and byte order as `_read_header` uses to decode. -/
def encode_header (h : FileHeader) : List Nat :=
  packBE 8 h.magic_number ++ packBE 8 h.file_id ++ packBE 4 h.version ++
    packBE 4 h.block_size ++ packBE 4 h.first_free_block ++
    packBE 4 h.user_param_count



/-! ## Concrete files used by the claims -/

/-- The scenario file of specification section 8: a 32 byte header with
magic 0x1122334455667788, file id 99, version 1, block size 64, first free
block -1 and parameter count 1; one parameter entry with name x and value
7; zero padding up to offset 64; one data block with flags 0, block id 5
and 59 zero payload bytes. -/
def scenarioFile : List Nat :=
  [0x11, 0x22, 0x33, 0x44, 0x55, 0x66, 0x77, 0x88] ++
  [0, 0, 0, 0, 0, 0, 0, 99] ++ [0, 0, 0, 1] ++ [0, 0, 0, 64] ++
  [255, 255, 255, 255] ++ [0, 0, 0, 1] ++
  [0, 0, 0, 1] ++ [120] ++ [0, 0, 0, 7] ++ List.replicate 23 0 ++
  [0] ++ [0, 0, 0, 5] ++ List.replicate 59 0

/-- A file whose header decodes with block size 64 and parameter count 0,
holding exactly one data block, whose stored block id is -1. -/
def loopFile : List Nat :=
  List.replicate 16 0 ++ [0, 0, 0, 1] ++ [0, 0, 0, 64] ++
  [255, 255, 255, 255] ++ [0, 0, 0, 0] ++ List.replicate 32 0 ++
  [0] ++ [255, 255, 255, 255] ++ List.replicate 59 0

/-- A 66 byte file: with block size 64, block index 0 starts at offset 64
and only 2 bytes remain there, so the flag byte read succeeds and the four
byte block id read comes up short. -/
def shortBlockFile : List Nat := List.replicate 66 0

/-- A file whose parameter table starts with the name length -1 and then
ends: the name read returns zero bytes without an error. -/
def negLenFile : List Nat := List.replicate 32 0 ++ [255, 255, 255, 255]

/-- A file whose parameter table starts with the name length -1 followed
by the single byte 0xFF: the name read consumes that byte and its UTF-8
decoding fails. -/
def negLenBadUtf8File : List Nat :=
  List.replicate 32 0 ++ [255, 255, 255, 255] ++ [255]

/-- A file whose header asks for one parameter, whose entry is complete
with name length 1 and value 7, but whose single name byte 0xFF is not
valid UTF-8. -/
def badUtf8File : List Nat :=
  List.replicate 16 0 ++ [0, 0, 0, 1] ++ [0, 0, 0, 64] ++
  [255, 255, 255, 255] ++ [0, 0, 0, 1] ++ [0, 0, 0, 1] ++ [255] ++
  [0, 0, 0, 7]

/-! ## Byte codec lemmas -/

theorem length_natToLE (w : Nat) : ∀ n, (natToLE w n).length = w := by
  induction w with
  | zero => intro n; simp [natToLE]
  | succ w ih => intro n; simp [natToLE, ih]

theorem leNat_lt (bs : List Nat) (h : ∀ b ∈ bs, b < 256) :
    leNat bs < 256 ^ bs.length := by
  induction bs with
  | nil => simp [leNat]
  | cons b bs ih =>
    have hb : b < 256 := h b (by simp)
    have hbs : leNat bs < 256 ^ bs.length := ih (fun x hx => h x (by simp [hx]))
    have : 256 ^ (b :: bs).length = 256 * 256 ^ bs.length := by
      simp [List.length_cons, pow_succ]; ring
    rw [this, leNat]
    omega

theorem natToLE_leNat (bs : List Nat) (h : ∀ b ∈ bs, b < 256) :
    natToLE bs.length (leNat bs) = bs := by
  induction bs with
  | nil => simp [natToLE, leNat]
  | cons b bs ih =>
    have hb : b < 256 := h b (by simp)
    have h1 : (b + 256 * leNat bs) % 256 = b := by
      rw [Nat.add_mul_mod_self_left, Nat.mod_eq_of_lt hb]
    have h2 : (b + 256 * leNat bs) / 256 = leNat bs := by
      rw [Nat.add_mul_div_left _ _ (by norm_num : 0 < 256),
        Nat.div_eq_of_lt hb, Nat.zero_add]
    simp only [List.length_cons, natToLE, leNat, h1, h2]
    rw [ih (fun x hx => h x (by simp [hx]))]

theorem leNat_natToLE (w : Nat) : ∀ n, n < 256 ^ w → leNat (natToLE w n) = n := by
  induction w with
  | zero => intro n hn; interval_cases n; simp [natToLE, leNat]
  | succ w ih =>
    intro n hn
    have hdiv : n / 256 < 256 ^ w := by
      rw [Nat.div_lt_iff_lt_mul (by norm_num : 0 < 256)]
      calc n < 256 ^ (w + 1) := hn
        _ = 256 ^ w * 256 := by ring
    simp only [natToLE, leNat, ih _ hdiv]
    exact Nat.mod_add_div n 256

theorem length_natToBE (w n : Nat) : (natToBE w n).length = w := by
  simp [natToBE, length_natToLE]

theorem beNat_lt (bs : List Nat) (h : ∀ b ∈ bs, b < 256) :
    beNat bs < 256 ^ bs.length := by
  have := leNat_lt bs.reverse (fun x hx => h x (List.mem_reverse.mp hx))
  simpa [beNat] using this

theorem natToBE_beNat (bs : List Nat) (h : ∀ b ∈ bs, b < 256) :
    natToBE bs.length (beNat bs) = bs := by
  have h' : ∀ b ∈ bs.reverse, b < 256 := fun x hx => h x (List.mem_reverse.mp hx)
  have := natToLE_leNat bs.reverse h'
  calc natToBE bs.length (beNat bs)
      = (natToLE bs.reverse.length (leNat bs.reverse)).reverse := by
        simp [natToBE, beNat]
    _ = bs.reverse.reverse := by rw [this]
    _ = bs := List.reverse_reverse bs

theorem beNat_natToBE (w n : Nat) (h : n < 256 ^ w) : beNat (natToBE w n) = n := by
  simp [beNat, natToBE, List.reverse_reverse, leNat_natToLE w n h]

theorem pow256_eq (w : Nat) : (256 : Nat) ^ w = 2 ^ (8 * w) := by
  rw [show (256 : Nat) = 2 ^ 8 from rfl, ← pow_mul]

theorem int_sub_emod_self (a b : Int) : (a - b) % b = a % b := by
  conv_lhs => rw [show a - b = a + b * (-1) by ring]
  exact Int.add_mul_emod_self_left a b (-1)

/-- Encode after decode: a byte list of width `w` is reproduced exactly by
signed big endian decoding followed by signed big endian encoding. -/
theorem packBE_sint (bs : List Nat) (h : ∀ b ∈ bs, b < 256) :
    packBE bs.length (sint bs.length bs) = bs := by
  set w := bs.length with hw
  set n := beNat bs with hn
  have hlt : n < 2 ^ (8 * w) := by rw [← pow256_eq]; exact beNat_lt bs h
  have key : ((toSigned w n) % (2 : Int) ^ (8 * w)).toNat = n := by
    unfold toSigned
    by_cases hc : n < 2 ^ (8 * w - 1)
    · rw [if_pos hc, Int.emod_eq_of_lt (by positivity) (by exact_mod_cast hlt)]
      simp
    · rw [if_neg hc]
      have h2 : ((n : Int) - 2 ^ (8 * w)) % (2 : Int) ^ (8 * w)
          = (n : Int) % (2 : Int) ^ (8 * w) := by
        have := int_sub_emod_self (n : Int) ((2 : Int) ^ (8 * w))
        simpa using this
      rw [h2, Int.emod_eq_of_lt (by positivity) (by exact_mod_cast hlt)]
      simp
  unfold packBE sint
  rw [key]
  exact natToBE_beNat bs h

/-- Decode after encode: a signed value in the `w` byte range is reproduced
exactly by signed big endian encoding followed by decoding. -/
theorem sint_packBE (w : Nat) (v : Int) (hw : 0 < w)
    (hlo : -(2 ^ (8 * w - 1)) ≤ v) (hhi : v < 2 ^ (8 * w - 1)) :
    sint w (packBE w v) = v := by
  have hsplit : (2 : Int) ^ (8 * w) = 2 ^ (8 * w - 1) * 2 := by
    rw [← pow_succ]
    congr 1
    omega
  set m := (v % (2 : Int) ^ (8 * w)).toNat with hm
  have hmod_lt : v % (2 : Int) ^ (8 * w) < (2 : Int) ^ (8 * w) :=
    Int.emod_lt_of_pos v (by positivity)
  have hmod_nonneg : 0 ≤ v % (2 : Int) ^ (8 * w) :=
    Int.emod_nonneg v (by positivity)
  have hcast : ((2 ^ (8 * w) : Nat) : Int) = (2 : Int) ^ (8 * w) := by
    push_cast
    ring
  have hmlt : m < 2 ^ (8 * w) := by
    have h1 : (m : Int) = v % (2 : Int) ^ (8 * w) := by
      rw [hm, Int.toNat_of_nonneg hmod_nonneg]
    have h2 : (m : Int) < ((2 ^ (8 * w) : Nat) : Int) := by
      rw [h1, hcast]
      exact hmod_lt
    exact_mod_cast h2
  have hbe : beNat (natToBE w m) = m :=
    beNat_natToBE w m (by rw [pow256_eq]; exact hmlt)
  unfold sint packBE
  rw [hbe]
  unfold toSigned
  by_cases hv : 0 ≤ v
  · have hveq : v % (2 : Int) ^ (8 * w) = v := by
      refine Int.emod_eq_of_lt hv ?_
      calc v < 2 ^ (8 * w - 1) := hhi
        _ ≤ (2 : Int) ^ (8 * w) := by rw [hsplit]; nlinarith [pow_pos (by norm_num : (0:Int) < 2) (8 * w - 1)]
    have hmv : (m : Int) = v := by rw [hm, hveq, Int.toNat_of_nonneg hv]
    have hcond : m < 2 ^ (8 * w - 1) := by
      have : (m : Int) < 2 ^ (8 * w - 1) := by rw [hmv]; exact hhi
      exact_mod_cast this
    rw [if_pos hcond, hmv]
  · push_neg at hv
    have hveq : v % (2 : Int) ^ (8 * w) = v + 2 ^ (8 * w) := by
      have h1 : (v + 2 ^ (8 * w)) % (2 : Int) ^ (8 * w) = v % (2 : Int) ^ (8 * w) := by
        have := Int.add_mul_emod_self_left v ((2 : Int) ^ (8 * w)) 1
        simpa using this
      have h2 : (v + 2 ^ (8 * w)) % (2 : Int) ^ (8 * w) = v + 2 ^ (8 * w) := by
        refine Int.emod_eq_of_lt ?_ (by omega)
        rw [hsplit]
        nlinarith [pow_pos (by norm_num : (0:Int) < 2) (8 * w - 1)]
      omega
    have hmv : (m : Int) = v + 2 ^ (8 * w) := by
      rw [hm, hveq, Int.toNat_of_nonneg (by omega)]
    have hcond : ¬ m < 2 ^ (8 * w - 1) := by
      intro hc
      have hc' : (m : Int) < 2 ^ (8 * w - 1) := by exact_mod_cast hc
      rw [hmv, hsplit] at hc'
      nlinarith [pow_pos (by norm_num : (0:Int) < 2) (8 * w - 1)]
    rw [if_neg hcond]
    have : ((2 : Nat) ^ (8 * w) : Int) = (2 : Int) ^ (8 * w) := by push_cast; ring
    omega

/-! ## Read and dict helper lemmas -/

theorem length_packBE (w : Nat) (v : Int) : (packBE w v).length = w := by
  simp [packBE, length_natToBE]

theorem readAt_chunk (pre mid suf : List Nat) (p n : Nat)
    (hp : p = pre.length) (hn : mid.length = n) :
    readAt (pre ++ (mid ++ suf)) p n = mid := by
  subst hp
  subst hn
  rw [readAt, List.drop_left, List.take_left]

theorem dictInsert_of_not_mem (d : List (List Nat × Int)) (k : List Nat)
    (v : Int) (h : k ∉ d.map Prod.fst) : dictInsert d k v = d ++ [(k, v)] := by
  unfold dictInsert
  have hfalse : d.any (fun p => p.1 == k) = false := by
    rw [List.any_eq_false]
    intro p hp
    simp only [beq_iff_eq]
    intro hk
    exact h (List.mem_map.mpr ⟨p, hp, hk⟩)
  rw [hfalse]
  simp

theorem encodeParams_cons (e : List Nat × Int) (es : List (List Nat × Int)) :
    encodeParams (e :: es) = encodeEntry e ++ encodeParams es := by
  simp [encodeParams]

/-! ## The parameter table reads its encoded entries exactly -/

theorem read_user_params_loop_encoded (entries : List (List Nat × Int)) :
    ∀ (pre suf : List Nat) (acc : List (List Nat × Int)),
    (∀ e ∈ entries, e.1.length < 2 ^ 31) →
    (∀ e ∈ entries, -(2 ^ 31) ≤ e.2 ∧ e.2 < 2 ^ 31) →
    (∀ e ∈ entries, (utf8Decode e.1).isSome = true) →
    (entries.map fun e => decodeName e.1).Nodup →
    (∀ e ∈ entries, decodeName e.1 ∉ acc.map Prod.fst) →
    read_user_params_loop (pre ++ encodeParams entries ++ suf) entries.length
        pre.length acc
      = .ok (acc ++ entries.map (fun e => (decodeName e.1, e.2)),
          pre.length + (encodeParams entries).length) := by
  induction entries with
  | nil =>
    intro pre suf acc _ _ _ _ _
    simp [read_user_params_loop, encodeParams]
  | cons e rest ih =>
    intro pre suf acc hlen hval hutf hnodup hdisj
    obtain ⟨nm, hnm⟩ := Option.isSome_iff_exists.mp (hutf e (by simp))
    have hdecName : decodeName e.1 = nm := by simp [decodeName, hnm]
    have hA : (packBE 4 (e.1.length : Int)).length = 4 := length_packBE 4 _
    have hC : (packBE 4 e.2).length = 4 := length_packBE 4 _
    have hfile : pre ++ encodeParams (e :: rest) ++ suf
        = pre ++ (packBE 4 (e.1.length : Int) ++
            (e.1 ++ (packBE 4 e.2 ++ (encodeParams rest ++ suf)))) := by
      simp [encodeParams_cons, encodeEntry, List.append_assoc]
    set A := packBE 4 (e.1.length : Int) with hAdef
    set C := packBE 4 e.2 with hCdef
    set R := encodeParams rest with hRdef
    rw [hfile]
    set file := pre ++ (A ++ (e.1 ++ (C ++ (R ++ suf)))) with hfiledef
    have h1 : readAt file pre.length 4 = A := by
      rw [hfiledef]
      exact readAt_chunk pre A _ _ _ rfl hA
    have h2 : readAt file (pre.length + 4) e.1.length = e.1 := by
      have hassoc : file = (pre ++ A) ++ (e.1 ++ (C ++ (R ++ suf))) := by
        rw [hfiledef]
        simp [List.append_assoc]
      rw [hassoc]
      exact readAt_chunk _ _ _ _ _ (by simp [hA]) rfl
    have h3 : readAt file (pre.length + 4 + e.1.length) 4 = C := by
      have hassoc : file = (pre ++ A ++ e.1) ++ (C ++ (R ++ suf)) := by
        rw [hfiledef]
        simp [List.append_assoc]
      rw [hassoc]
      exact readAt_chunk _ _ _ _ _ (by simp [hA]; omega) hC
    have h8 : ((2 : Int) ^ (8 * 4 - 1)) = 2147483648 := by norm_num
    have hsintA : sint 4 A = (e.1.length : Int) := by
      rw [hAdef]
      refine sint_packBE 4 _ (by norm_num) ?_ ?_
      · rw [h8]
        omega
      · have h := hlen e (by simp)
        norm_num at h
        rw [h8]
        omega
    have hsintC : sint 4 C = e.2 := by
      rw [hCdef]
      have hv1 := (hval e (by simp)).1
      have hv2 := (hval e (by simp)).2
      norm_num at hv1 hv2
      refine sint_packBE 4 _ (by norm_num) ?_ ?_
      · rw [h8]
        omega
      · rw [h8]
        omega
    have hreadraw : readRaw file (pre.length + 4) (e.1.length : Int) = e.1 := by
      rw [readRaw, if_neg (by omega)]
      simpa using h2
    show read_user_params_loop file (rest.length + 1) pre.length acc = _
    rw [read_user_params_loop]
    simp only [h1, hA, hsintA, hreadraw, hnm]
    rw [if_neg (by norm_num)]
    rw [if_neg (by simp)]
    rw [h3]
    rw [if_neg (by rw [hC]; norm_num)]
    rw [hsintC]
    have hins : dictInsert acc nm e.2 = acc ++ [(nm, e.2)] := by
      refine dictInsert_of_not_mem acc nm e.2 ?_
      have := hdisj e (by simp)
      rwa [hdecName] at this
    rw [hins]
    have hassoc2 : file = (pre ++ A ++ e.1 ++ C) ++ R ++ suf := by
      rw [hfiledef]
      simp [List.append_assoc]
    have hpos : pre.length + 4 + e.1.length + 4 = (pre ++ A ++ e.1 ++ C).length := by
      simp [hA, hC]
      omega
    rw [List.map_cons] at hnodup
    have hnodup' := List.nodup_cons.mp hnodup
    have hrec := ih (pre ++ A ++ e.1 ++ C) suf (acc ++ [(nm, e.2)])
      (fun x hx => hlen x (by simp [hx]))
      (fun x hx => hval x (by simp [hx]))
      (fun x hx => hutf x (by simp [hx]))
      hnodup'.2
      (by
        intro x hx
        simp only [List.map_append, List.mem_append]
        push_neg
        constructor
        · exact hdisj x (by simp [hx])
        · simp only [List.map_cons, List.map_nil, List.mem_singleton]
          intro hcontra
          refine hnodup'.1 ?_
          rw [hdecName]
          exact List.mem_map.mpr ⟨x, hx, hcontra⟩)
    rw [hpos, hassoc2, hrec]
    simp only [Except.ok.injEq, Prod.mk.injEq]
    constructor
    · simp [List.append_assoc, hdecName]
    · simp only [List.length_append, encodeParams_cons, encodeEntry,
        length_packBE, hA, hC, ← hRdef]
      omega

/-! ## Block read case analysis -/

theorem gbb_nat (file : List Nat) (bs idx : Nat) :
    get_buffer_block file (bs : Int) (idx : Int) =
      (if readAt file ((idx + 1) * bs) 1 = [] then .error .blockOutOfRange
       else if (readAt file ((idx + 1) * bs + 1) 4).length < 4 then
         .error .structShort
       else if ((readRaw file ((idx + 1) * bs + 5) ((bs : Int) - 5)).length : Int)
           < (bs : Int) - 5 then .error .blockOutOfRange
       else
         .ok (readAt file ((idx + 1) * bs) 1,
           readRaw file ((idx + 1) * bs + 5) ((bs : Int) - 5),
           sint 4 (readAt file ((idx + 1) * bs + 1) 4))) := by
  simp only [get_buffer_block]
  have hoff : ((idx : Int) + 1) * (bs : Int) = (((idx + 1) * bs : Nat) : Int) := by
    push_cast
    ring
  rw [hoff, if_neg (by omega)]
  rw [Int.toNat_natCast]

theorem gbb_eof (file : List Nat) (bs idx : Nat)
    (h : file.length ≤ (idx + 1) * bs) :
    get_buffer_block file (bs : Int) (idx : Int) = .error .blockOutOfRange := by
  rw [gbb_nat]
  have hflags : readAt file ((idx + 1) * bs) 1 = [] := by
    simp [readAt, List.drop_eq_nil_of_le h]
  rw [if_pos hflags]

theorem gbb_struct_short (file : List Nat) (bs idx : Nat)
    (h1 : (idx + 1) * bs < file.length)
    (h2 : file.length ≤ (idx + 1) * bs + 4) :
    get_buffer_block file (bs : Int) (idx : Int) = .error .structShort := by
  rw [gbb_nat]
  have hflags : readAt file ((idx + 1) * bs) 1 ≠ [] := by
    refine List.ne_nil_of_length_pos ?_
    simp only [readAt, List.length_take, List.length_drop]
    omega
  rw [if_neg hflags]
  have hid : (readAt file ((idx + 1) * bs + 1) 4).length < 4 := by
    simp only [readAt, List.length_take, List.length_drop]
    omega
  rw [if_pos hid]

theorem gbb_payload_short (file : List Nat) (bs idx : Nat) (h5 : 5 ≤ bs)
    (h1 : (idx + 1) * bs + 4 < file.length)
    (h2 : file.length < (idx + 1) * bs + bs) :
    get_buffer_block file (bs : Int) (idx : Int) = .error .blockOutOfRange := by
  rw [gbb_nat]
  have hflags : readAt file ((idx + 1) * bs) 1 ≠ [] := by
    refine List.ne_nil_of_length_pos ?_
    simp only [readAt, List.length_take, List.length_drop]
    omega
  rw [if_neg hflags]
  have hid : ¬ (readAt file ((idx + 1) * bs + 1) 4).length < 4 := by
    simp only [readAt, List.length_take, List.length_drop]
    omega
  rw [if_neg hid]
  have hdata : ((readRaw file ((idx + 1) * bs + 5) ((bs : Int) - 5)).length : Int)
      < (bs : Int) - 5 := by
    rw [readRaw, if_neg (by omega)]
    simp only [readAt, List.length_take, List.length_drop]
    push_cast
    omega
  rw [if_pos hdata]

theorem gbb_success (file : List Nat) (bs idx : Nat) (h5 : 5 ≤ bs)
    (h : (idx + 1) * bs + bs ≤ file.length) :
    get_buffer_block file (bs : Int) (idx : Int) =
      .ok (readAt file ((idx + 1) * bs) 1,
        readRaw file ((idx + 1) * bs + 5) ((bs : Int) - 5),
        sint 4 (readAt file ((idx + 1) * bs + 1) 4)) := by
  rw [gbb_nat]
  have hflags : readAt file ((idx + 1) * bs) 1 ≠ [] := by
    refine List.ne_nil_of_length_pos ?_
    simp only [readAt, List.length_take, List.length_drop]
    omega
  rw [if_neg hflags]
  have hid : ¬ (readAt file ((idx + 1) * bs + 1) 4).length < 4 := by
    simp only [readAt, List.length_take, List.length_drop]
    omega
  rw [if_neg hid]
  have hdata : ¬ ((readRaw file ((idx + 1) * bs + 5) ((bs : Int) - 5)).length : Int)
      < (bs : Int) - 5 := by
    rw [readRaw, if_neg (by omega)]
    simp only [readAt, List.length_take, List.length_drop]
    push_cast
    omega
  rw [if_neg hdata]

/-! ## Helpers for the claim theorems -/

theorem packBE_sint_len (cs : List Nat) (w : Nat) (hw : cs.length = w)
    (h : ∀ b ∈ cs, b < 256) : packBE w (sint w cs) = cs := by
  subst hw
  exact packBE_sint cs h

theorem split32 (l : List Nat) (h : l.length = 32) :
    l.take 8 ++ ((l.drop 8).take 8 ++ ((l.drop 16).take 4 ++
      ((l.drop 20).take 4 ++ ((l.drop 24).take 4 ++ (l.drop 28).take 4)))) = l := by
  have h1 := List.take_append_drop 8 l
  have h2 := List.take_append_drop 8 (l.drop 8)
  have h3 := List.take_append_drop 4 (l.drop 16)
  have h4 := List.take_append_drop 4 (l.drop 20)
  have h5 := List.take_append_drop 4 (l.drop 24)
  have d2 : (l.drop 8).drop 8 = l.drop 16 := by rw [List.drop_drop]
  have d3 : (l.drop 16).drop 4 = l.drop 20 := by rw [List.drop_drop]
  have d4 : (l.drop 20).drop 4 = l.drop 24 := by rw [List.drop_drop]
  have d5 : (l.drop 24).drop 4 = l.drop 28 := by rw [List.drop_drop]
  have d6 : (l.drop 28).take 4 = l.drop 28 := by
    refine List.take_of_length_le ?_
    simp [List.length_drop, h]
  rw [d6, ← d5, h5, ← d4, h4, ← d3, h3, ← d2, h2, h1]

theorem gbb_loopFile_0 :
    get_buffer_block loopFile 64 0 = .ok ([0], List.replicate 59 0, -1) := rfl

theorem info_loop_loopFile (fuel : Nat) :
    (info_loop loopFile 64 fuel (-1)).2 = .ok none := by
  induction fuel with
  | zero => rfl
  | succ k ih =>
    rw [info_loop]
    rw [show (-1 : Int) + 1 = 0 from rfl, gbb_loopFile_0]
    simpa using ih

theorem info_report_scenario_succ (k : Nat) :
    info_report scenarioFile 64 (k + 1) = ([0, 6], .ok (some 6)) := by
  have h0 : get_buffer_block scenarioFile 64 0 =
      .ok ([0], List.replicate 59 0, 5) := rfl
  have h6 : get_buffer_block scenarioFile 64 6 = .error .blockOutOfRange := rfl
  have hloop : info_loop scenarioFile 64 (k + 1) 5 = ([6], .ok (some 6)) := by
    rw [info_loop]
    rw [show (5 : Int) + 1 = 6 from rfl, h6]
    rfl
  rw [info_report, h0]
  simp [hloop]

/-! ## Claim theorems -/

/-- C1: the claim says the count loop of `info` passes block indices to
`get_buffer_block` strictly sequentially, 0, 1, 2, and so on, stopping at
the first block out of range failure.  On the section 8 scenario file the
code instead passes index 0 and then index 6, because the loop variable is
overwritten with the stored block id 5 of the block just read and then
incremented: indices 1 through 5 are never passed, and the loop stops at
index 6 although index 1 already fails with the block out of range error,
so it reports 6.  This contradicts the printed label, which promises the
number of blocks read. -/
theorem c1_enumeration_not_sequential :
    (∀ fuel : Nat, info_report scenarioFile 64 (fuel + 1) = ([0, 6], .ok (some 6))) ∧
    get_buffer_block scenarioFile 64 1 = .error .blockOutOfRange :=
  ⟨info_report_scenario_succ, rfl⟩

/-- C2: on the section 8 scenario file the header decodes with block size
64 and parameter count 1, the parameter table decodes to the single entry
mapping the name x (code point 120) to 7 and consumes the bytes up to
offset 41, the block read at index 0 succeeds with flags byte 0 and block
id 5, and the block read at index 1 fails with the block out of range
error — but the reported total block count is 6, not 1 as the claim
states, because the count loop advances by the stored block id. -/
theorem c2_scenario_file :
    read_header scenarioFile = .ok ⟨0x1122334455667788, 99, 1, 64, -1, 1⟩ ∧
    read_user_params scenarioFile 1 = .ok ([([120], 7)], 41) ∧
    get_buffer_block scenarioFile 64 0 = .ok ([0], List.replicate 59 0, 5) ∧
    get_buffer_block scenarioFile 64 1 = .error .blockOutOfRange ∧
    (info_report scenarioFile 64 1).2 = .ok (some 6) ∧
    (∀ fuel : Nat, (info_report scenarioFile 64 fuel).2 ≠ .ok (some 1)) := by
  refine ⟨rfl, rfl, rfl, rfl, rfl, ?_⟩
  intro fuel
  match fuel with
  | 0 =>
    rw [show (info_report scenarioFile 64 0).2 = Except.ok none from rfl]
    simp
  | k + 1 =>
    rw [info_report_scenario_succ k]
    simp

/-- C3 counterexample: on a 66 byte file with block size 64, the block
read at index 0 finds 2 bytes at offset 64: the flag byte read succeeds,
the four byte block id read returns a single byte, and `struct.unpack`
fails with a `struct.error`, not with the block out of range `ValueError`,
and the enumerating caller does not catch it. -/
theorem c3_short_id_raises_struct_error :
    get_buffer_block shortBlockFile 64 0 = .error .structShort ∧
    JErr.structShort ≠ JErr.blockOutOfRange ∧
    isValueError .structShort = false :=
  ⟨rfl, by decide, rfl⟩

/-- C3 amended: for a block index whose data is short (fewer than
block size bytes remain at the block offset), the read fails with the
block out of range error when no byte at all remains or when at least 5
bytes remain but the payload comes up short; but when 1 to 4 bytes remain
the block id unpack fails with a struct error instead, an error outside
the specified taxonomy that the enumerating caller does not catch. -/
theorem c3_amended_short_block_errors (file : List Nat) (bs idx r : Nat)
    (h5 : 5 ≤ bs)
    (hr : r = file.length - (idx + 1) * bs)
    (hshort : r < bs) :
    get_buffer_block file (bs : Int) (idx : Int) =
      .error (if r = 0 then .blockOutOfRange
              else if r ≤ 4 then .structShort
              else .blockOutOfRange) := by
  by_cases h0 : r = 0
  · rw [if_pos h0]
    exact gbb_eof file bs idx (by omega)
  · rw [if_neg h0]
    by_cases h4 : r ≤ 4
    · rw [if_pos h4]
      exact gbb_struct_short file bs idx (by omega) (by omega)
    · rw [if_neg h4]
      exact gbb_payload_short file bs idx h5 (by omega) (by omega)

/-- C3 amended witness: the amended statement applied to the 66 byte file
with block size 64 at index 0, where 2 bytes remain. -/
theorem c3_amended_short_block_errors_witness :
    5 ≤ 64 ∧ (2 : Nat) = shortBlockFile.length - (0 + 1) * 64 ∧ (2 : Nat) < 64 ∧
    get_buffer_block shortBlockFile ((64 : Nat) : Int) ((0 : Nat) : Int) =
      .error .structShort :=
  ⟨by decide, by decide, by decide,
    c3_amended_short_block_errors shortBlockFile 64 0 2 (by decide) (by decide)
      (by decide)⟩

/-- C4: the claim says the count loop terminates on every finite file
whose header decodes with block size above 5.  The file `loopFile` has a
valid header with block size 64 and one block, whose stored block id is
-1: the loop reads index 0, overwrites its loop variable with -1,
increments it back to 0 and reads index 0 again, forever, so for every
fuel bound the loop is still running and no count is ever reported. -/
theorem c4_enumeration_nonterminating :
    read_header loopFile = .ok ⟨0, 0, 1, 64, -1, 0⟩ ∧
    (∀ fuel : Nat, (info_report loopFile 64 fuel).2 = .ok none) := by
  refine ⟨rfl, ?_⟩
  intro fuel
  rw [info_report, gbb_loopFile_0]
  simpa using info_loop_loopFile fuel

/-- C5 counterexample: a parameter entry whose decoded name length is -1
does not fail at the name read: Python reads to end of file on a negative
count, so the name read never comes up short.  On `negLenFile` the entry
fails only afterwards, at the value read; on `negLenBadUtf8File` it fails
with a UTF-8 decoding error instead.  The final conjunct checks that the
four length bytes indeed decode to -1. -/
theorem c5_negative_length_not_name_error :
    read_user_params negLenFile 1 = .error .truncatedParamValue ∧
    read_user_params negLenBadUtf8File 1 = .error .unicodeDecode ∧
    JErr.truncatedParamValue ≠ JErr.truncatedParamName ∧
    JErr.unicodeDecode ≠ JErr.truncatedParamName ∧
    sint 4 [255, 255, 255, 255] = -1 :=
  ⟨rfl, rfl, by decide, by decide, rfl⟩

/-- C5 amended: a nonnegative decoded name length larger than the bytes
remaining surfaces as the name truncation failure, with no separate
validation; a negative decoded name length is not validated either, but
never fails at the name read: the read consumes the rest of the file as
the name and the entry then fails at the value read, or with a UTF-8
decoding error on the consumed bytes. -/
theorem c5_amended_name_length_not_validated (file : List Nat) (pos k : Nat)
    (acc : List (List Nat × Int))
    (h4 : (readAt file pos 4).length = 4) :
    (0 ≤ sint 4 (readAt file pos 4) →
      ((readRaw file (pos + 4) (sint 4 (readAt file pos 4))).length : Int)
          < sint 4 (readAt file pos 4) →
      read_user_params_loop file (k + 1) pos acc = .error .truncatedParamName) ∧
    (sint 4 (readAt file pos 4) < 0 →
      (read_user_params_loop file (k + 1) pos acc = .error .truncatedParamValue ∨
        read_user_params_loop file (k + 1) pos acc = .error .unicodeDecode)) := by
  constructor
  · intro hnn hshort
    simp only [read_user_params_loop]
    rw [if_neg (by omega)]
    rw [if_pos hshort]
  · intro hneg
    have hname : readRaw file (pos + 4) (sint 4 (readAt file pos 4))
        = file.drop (pos + 4) := by
      rw [readRaw, if_pos hneg]
    have hnotshort :
        ¬ ((file.drop (pos + 4)).length : Int) < sint 4 (readAt file pos 4) := by
      omega
    simp only [read_user_params_loop]
    rw [if_neg (by omega)]
    rw [hname, if_neg hnotshort]
    cases hu : utf8Decode (file.drop (pos + 4)) with
    | none =>
      right
      simp only [hu]
    | some nm =>
      left
      simp only [hu]
      have hvshort : (readAt file (pos + 4 + (file.drop (pos + 4)).length) 4).length
          < 4 := by
        simp only [readAt, List.length_take, List.length_drop]
        omega
      rw [if_pos hvshort]

/-- C5 amended witness: the amended statement applied to `negLenFile` at
offset 32 with one entry remaining. -/
theorem c5_amended_name_length_not_validated_witness :
    (readAt negLenFile 32 4).length = 4 ∧
    ((0 ≤ sint 4 (readAt negLenFile 32 4) →
        ((readRaw negLenFile (32 + 4) (sint 4 (readAt negLenFile 32 4))).length : Int)
            < sint 4 (readAt negLenFile 32 4) →
        read_user_params_loop negLenFile (0 + 1) 32 [] = .error .truncatedParamName) ∧
      (sint 4 (readAt negLenFile 32 4) < 0 →
        (read_user_params_loop negLenFile (0 + 1) 32 [] = .error .truncatedParamValue ∨
          read_user_params_loop negLenFile (0 + 1) 32 [] = .error .unicodeDecode))) :=
  ⟨by decide, c5_amended_name_length_not_validated negLenFile 32 0 [] (by decide)⟩

/-- C6: a file holding the header block and exactly N complete blocks of
block size bytes has length (N + 1) times the block size; the block read
succeeds at every index below N and fails with the block out of range
error at index N, where the file ends exactly at the block offset. -/
theorem c6_exact_blocks (file : List Nat) (bs N : Nat) (h5 : 5 ≤ bs)
    (hlen : file.length = (N + 1) * bs) :
    (∀ i : Nat, i < N →
      ∃ fl d id, get_buffer_block file (bs : Int) (i : Int) = .ok (fl, d, id)) ∧
    get_buffer_block file (bs : Int) (N : Int) = .error .blockOutOfRange := by
  constructor
  · intro i hi
    refine ⟨_, _, _, gbb_success file bs i h5 ?_⟩
    have h2 : i + 2 ≤ N + 1 := by omega
    calc (i + 1) * bs + bs = (i + 2) * bs := by ring
      _ ≤ (N + 1) * bs := Nat.mul_le_mul_right bs h2
      _ = file.length := hlen.symm
  · exact gbb_eof file bs N (by omega)

set_option maxRecDepth 4000 in
/-- C6 witness: a 128 byte zero file with block size 64 holds exactly one
block: index 0 succeeds and index 1 fails with the block out of range
error. -/
theorem c6_exact_blocks_witness :
    5 ≤ 64 ∧ (List.replicate 128 0 : List Nat).length = (1 + 1) * 64 ∧
    ((∀ i : Nat, i < 1 →
        ∃ fl d id, get_buffer_block (List.replicate 128 0) ((64 : Nat) : Int)
          ((i : Nat) : Int) = .ok (fl, d, id)) ∧
      get_buffer_block (List.replicate 128 0) ((64 : Nat) : Int)
        ((1 : Nat) : Int) = .error .blockOutOfRange) :=
  ⟨by decide, by decide,
    c6_exact_blocks (List.replicate 128 0) 64 1 (by decide) (by decide)⟩

/-- C7: for every 32 byte prefix of well formed bytes, decoding it as two
big endian 8 byte signed integers followed by four big endian 4 byte
signed integers and re-encoding the six decoded fields with the same byte
order reproduces the original 32 bytes exactly. -/
theorem c7_header_roundtrip (file : List Nat) (hlen : 32 ≤ file.length)
    (hbytes : ∀ b ∈ file.take 32, b < 256) :
    ∃ h, read_header file = .ok h ∧ encode_header h = file.take 32 := by
  set hs := file.take 32 with hhs
  have hslen : hs.length = 32 := by
    rw [hhs, List.length_take]
    omega
  have hok : read_header file =
      .ok ⟨sint 8 (hs.take 8), sint 8 ((hs.drop 8).take 8),
        sint 4 ((hs.drop 16).take 4), sint 4 ((hs.drop 20).take 4),
        sint 4 ((hs.drop 24).take 4), sint 4 ((hs.drop 28).take 4)⟩ := by
    simp only [read_header]
    rw [if_neg (by rw [List.length_take]; omega)]
  refine ⟨_, hok, ?_⟩
  simp only [encode_header]
  have e1 : packBE 8 (sint 8 (hs.take 8)) = hs.take 8 :=
    packBE_sint_len _ 8 (by rw [List.length_take]; omega)
      (fun b hb => hbytes b (List.take_subset _ _ hb))
  have e2 : packBE 8 (sint 8 ((hs.drop 8).take 8)) = (hs.drop 8).take 8 :=
    packBE_sint_len _ 8 (by rw [List.length_take, List.length_drop]; omega)
      (fun b hb => hbytes b (List.drop_subset _ _ (List.take_subset _ _ hb)))
  have e3 : packBE 4 (sint 4 ((hs.drop 16).take 4)) = (hs.drop 16).take 4 :=
    packBE_sint_len _ 4 (by rw [List.length_take, List.length_drop]; omega)
      (fun b hb => hbytes b (List.drop_subset _ _ (List.take_subset _ _ hb)))
  have e4 : packBE 4 (sint 4 ((hs.drop 20).take 4)) = (hs.drop 20).take 4 :=
    packBE_sint_len _ 4 (by rw [List.length_take, List.length_drop]; omega)
      (fun b hb => hbytes b (List.drop_subset _ _ (List.take_subset _ _ hb)))
  have e5 : packBE 4 (sint 4 ((hs.drop 24).take 4)) = (hs.drop 24).take 4 :=
    packBE_sint_len _ 4 (by rw [List.length_take, List.length_drop]; omega)
      (fun b hb => hbytes b (List.drop_subset _ _ (List.take_subset _ _ hb)))
  have e6 : packBE 4 (sint 4 ((hs.drop 28).take 4)) = (hs.drop 28).take 4 :=
    packBE_sint_len _ 4 (by rw [List.length_take, List.length_drop]; omega)
      (fun b hb => hbytes b (List.drop_subset _ _ (List.take_subset _ _ hb)))
  rw [e1, e2, e3, e4, e5, e6]
  simp only [List.append_assoc]
  exact split32 hs hslen

set_option maxRecDepth 4000 in
/-- C7 witness: the round trip applied to the section 8 scenario file. -/
theorem c7_header_roundtrip_witness :
    32 ≤ scenarioFile.length ∧ (∀ b ∈ scenarioFile.take 32, b < 256) ∧
    ∃ h, read_header scenarioFile = .ok h ∧
      encode_header h = scenarioFile.take 32 :=
  ⟨by decide, by decide, c7_header_roundtrip scenarioFile (by decide) (by decide)⟩

/-- C8: for a file whose first 32 bytes are any header, whose bytes from
offset 32 encode k well formed parameter entries, and whose remaining
bytes are arbitrary, reading the table with count k succeeds, consumes
exactly the bytes of the k entries (the final file position is 32 plus
their encoded length), and produces the mapping that lists the decoded
names with their values in insertion order; with k = 0 the mapping is
empty and the position stays at 32. -/
theorem c8_param_table_exact (hdr suffix : List Nat)
    (entries : List (List Nat × Int)) (hhdr : hdr.length = 32)
    (hlen : ∀ e ∈ entries, e.1.length < 2 ^ 31)
    (hval : ∀ e ∈ entries, -(2 ^ 31) ≤ e.2 ∧ e.2 < 2 ^ 31)
    (hutf : ∀ e ∈ entries, (utf8Decode e.1).isSome = true)
    (hnodup : (entries.map fun e => decodeName e.1).Nodup) :
    read_user_params (hdr ++ encodeParams entries ++ suffix)
        (entries.length : Int)
      = .ok (entries.map (fun e => (decodeName e.1, e.2)),
          32 + (encodeParams entries).length) := by
  rw [read_user_params, Int.toNat_natCast]
  have h := read_user_params_loop_encoded entries hdr suffix []
    hlen hval hutf hnodup (by simp)
  rw [hhdr] at h
  simpa using h

set_option maxRecDepth 4000 in
/-- C8 witness: the exact read applied to a 32 byte zero header followed
by the single entry mapping the name x to 7, with an empty suffix. -/
theorem c8_param_table_exact_witness :
    (List.replicate 32 0 : List Nat).length = 32 ∧
    (∀ e ∈ [([120], 7)], (e : List Nat × Int).1.length < 2 ^ 31) ∧
    (∀ e ∈ [([120], 7)], -(2 ^ 31) ≤ (e : List Nat × Int).2 ∧ e.2 < 2 ^ 31) ∧
    (∀ e ∈ [([120], 7)], (utf8Decode (e : List Nat × Int).1).isSome = true) ∧
    (([([120], 7)].map fun e => decodeName (e : List Nat × Int).1)).Nodup ∧
    read_user_params
        (List.replicate 32 0 ++ encodeParams [([120], 7)] ++ [])
        (([([120], 7)] : List (List Nat × Int)).length : Int)
      = .ok ([([120], 7)].map (fun e => (decodeName (e : List Nat × Int).1, e.2)),
          32 + (encodeParams [([120], 7)]).length) :=
  ⟨by decide, by decide, by decide, by decide, by decide,
    c8_param_table_exact (List.replicate 32 0) [] [([120], 7)]
      (by decide) (by decide) (by decide) (by decide) (by decide)⟩

/-- C9: for every file shorter than 32 bytes the header read fails with
the truncated header error, and the construction of the decoded view
aborts entirely with that same error, exposing no decoded field. -/
theorem c9_truncated_header_fatal (file : List Nat) (h : file.length < 32) :
    read_header file = .error .truncatedHeader ∧
    LocalBufferFile.load file = .error .truncatedHeader := by
  have hh : read_header file = .error .truncatedHeader := by
    simp only [read_header]
    rw [if_pos (by rw [List.length_take]; omega)]
  exact ⟨hh, by simp [LocalBufferFile.load, hh]⟩

/-- C9 witness: the empty file. -/
theorem c9_truncated_header_fatal_witness :
    ([] : List Nat).length < 32 ∧
    (read_header ([] : List Nat) = .error .truncatedHeader ∧
      LocalBufferFile.load ([] : List Nat) = .error .truncatedHeader) :=
  ⟨by decide, c9_truncated_header_fatal [] (by decide)⟩

/-- C10: a parameter entry whose length and value fields are fully
present but whose single name byte 0xFF is not valid UTF-8 makes the
whole load fail with a UTF-8 decoding error, an outcome distinct from
every error of the specified taxonomy (the truncation errors and the
block out of range error). -/
theorem c10_invalid_utf8_name :
    LocalBufferFile.load badUtf8File = .error .unicodeDecode ∧
    JErr.unicodeDecode ≠ JErr.truncatedHeader ∧
    JErr.unicodeDecode ≠ JErr.truncatedParamNameLength ∧
    JErr.unicodeDecode ≠ JErr.truncatedParamName ∧
    JErr.unicodeDecode ≠ JErr.truncatedParamValue ∧
    JErr.unicodeDecode ≠ JErr.blockOutOfRange :=
  ⟨rfl, by decide, by decide, by decide, by decide, by decide⟩
